import Mathlib

/-!
Verification of the compact API-token authentication scheme
(`src/modules/auth/tokens.py`): token issuance (`make_api_token`), the
custom compact decoding (`decode_api_token`), hashing for storage
(`hash_token`) and the end-to-end verification pipeline
(`verify_api_token`).

Strings are embedded as lists of characters (`Str`), which mirrors
Python string slicing exactly (including the `s[:-0]` corner case).
Instants are embedded at whole-second granularity, the precision the
wire format actually carries: a `Datetime` is a number of seconds since
the Unix epoch.  The PyJWT library is not part of the repository; its
encode/decode behaviour is modelled from the specification of the
SigningEngine (a header fully determined by the algorithm, a payload
segment carrying subject and expiry, and a signature over header and
payload keyed by the secret), with the expiry comparison pinned by the
repository test suite (a token whose expiry equals the current instant
is already expired).
-/

set_option maxRecDepth 1000000

/-- Strings are modelled as lists of characters. -/
abbrev Str := List Char

/-- Converts a Lean string literal to the model representation. -/
def strOf (s : String) : Str := s.data

/-- Python slice `t[:-n]` for a nonnegative `n`.  Note the Python corner
case: `-0 == 0`, so `t[:-0]` is `t[:0]`, the empty string; and when `n`
is at least the length the result is also empty. -/
def pyTakeNeg (t : Str) (n : Nat) : Str :=
  if n = 0 then [] else t.take (t.length - n)

/-- Python slice `t[-n:]` for a nonnegative `n`.  Again `-0 == 0` makes
`t[-0:]` the whole string, and `n` at or above the length also yields
the whole string. -/
def pyDropNeg (t : Str) (n : Nat) : Str :=
  if n = 0 then t else t.drop (t.length - n)

/-- Python `str.strip()`: removes leading and trailing whitespace. -/
def stripStr (t : Str) : Str :=
  ((t.dropWhile Char.isWhitespace).reverse.dropWhile Char.isWhitespace).reverse

/-- Fuel-driven scanner behind `replaceBearer` (structural recursion on
the fuel so that the kernel can evaluate it; the fuel is instantiated
with the length of the string, which always suffices). -/
def replaceBearerAux : Nat → Str → Str
  | _, [] => []
  | 0, c :: rest => c :: rest
  | f + 1, c :: rest =>
    if (c :: rest).take 6 = strOf "Bearer" then replaceBearerAux f ((c :: rest).drop 6)
    else c :: replaceBearerAux f rest

/-- Python `str.replace("Bearer", "")`: removes every leftmost,
non-overlapping occurrence of the literal substring `Bearer`, scanning
the original string from the left (the result is not rescanned, but
removing an occurrence can splice the surrounding characters into a new
occurrence inside the result). -/
def replaceBearer (l : Str) : Str := replaceBearerAux l.length l

/-- Python `str.isnumeric` on one character, restricted to the character
universe relevant here: the ASCII decimal digits, plus the vulgar
fraction one half (U+00BD) as a representative of the Unicode characters
that are numeric but are not decimal digits and are therefore rejected
by `int()`.  The full Unicode numeric set is larger (other decimal digit
blocks parse with `int()` exactly like the ASCII digits do). -/
def pyIsNumericChar (c : Char) : Bool := c.isDigit || c = '½'

/-- Python `str.isnumeric()`: nonempty and every character numeric. -/
def pyIsNumericStr (s : Str) : Bool := !s.isEmpty && s.all pyIsNumericChar

/-- Value of one ASCII decimal or lowercase hexadecimal digit. -/
def digitVal (c : Char) : Nat := (strOf "0123456789abcdef").indexOf c

/-- Character for a digit value below sixteen. -/
def digitChar (k : Nat) : Char := (strOf "0123456789abcdef").getD k '0'

/-- Value of a big-endian string of ASCII decimal digits. -/
def decBEVal (s : Str) : Nat := s.foldl (fun a c => 10 * a + digitVal c) 0

/-- Python `int(s)` on the strings that survive the `isnumeric` gate:
succeeds exactly on nonempty all-decimal-digit strings (leading zeros
allowed) and raises `ValueError` on the numeric-but-not-decimal
characters. -/
def pyIntOfStr (s : Str) : Option Nat :=
  if !s.isEmpty && s.all Char.isDigit then some (decBEVal s) else none

/-- Little-endian base-`b` digit string of `n`, written with an explicit
fuel argument so that the definition is structurally recursive and
computes inside the kernel; `natDigitsLE` instantiates the fuel. -/
def natDigitsLEAux (b : Nat) : Nat → Nat → Str
  | 0, _ => []
  | fuel + 1, n => if n = 0 then [] else digitChar (n % b) :: natDigitsLEAux b fuel (n / b)

/-- Little-endian base-`b` digit string of `n` (empty for zero). -/
def natDigitsLE (b n : Nat) : Str := natDigitsLEAux b n n

/-- Value of a little-endian base-`b` digit string. -/
def baseLEVal (b : Nat) : Str → Nat
  | [] => 0
  | c :: r => digitVal c + b * baseLEVal b r

/-- Python `str(n)` for a natural number: big-endian decimal digits.
Python renders zero as a single digit `0`. -/
def natToDec (n : Nat) : Str :=
  if n = 0 then ['0'] else (natDigitsLE 10 n).reverse

/-- Python f-string padding `f"{s:0>3}"`: left-pad with zeros to width
three (strings already at least three characters long are unchanged). -/
def padLeft3 (s : Str) : Str := List.replicate (3 - s.length) '0' ++ s

section DigitLemmas

theorem digitVal_digitChar : ∀ k < 16, digitVal (digitChar k) = k := by decide

theorem digitChar_mem_hex : ∀ k < 16, digitChar k ∈ strOf "0123456789abcdef" := by decide

theorem natDigitsLEAux_fuel (b : Nat) (hb : 2 ≤ b) :
    ∀ f1 f2 n, n ≤ f1 → n ≤ f2 → natDigitsLEAux b f1 n = natDigitsLEAux b f2 n := by
  intro f1
  induction f1 with
  | zero =>
    intro f2 n h1 _
    have hn : n = 0 := by omega
    subst hn
    cases f2 <;> simp [natDigitsLEAux]
  | succ f ih =>
    intro f2 n h1 h2
    cases n with
    | zero => cases f2 <;> simp [natDigitsLEAux]
    | succ m =>
      cases f2 with
      | zero => omega
      | succ g =>
        have hdiv : (m + 1) / b < m + 1 := Nat.div_lt_self (Nat.succ_pos m) (by omega)
        simp only [natDigitsLEAux, Nat.succ_ne_zero, if_neg]
        rw [ih g ((m + 1) / b) (by omega) (by omega)]

theorem natDigitsLEAux_eq (b : Nat) (hb : 2 ≤ b) (fuel n : Nat) (h : n ≤ fuel) :
    natDigitsLEAux b fuel n = natDigitsLE b n :=
  natDigitsLEAux_fuel b hb fuel n n h le_rfl

theorem natDigitsLE_zero (b : Nat) : natDigitsLE b 0 = [] := by
  simp [natDigitsLE, natDigitsLEAux]

theorem natDigitsLE_succ (b : Nat) (hb : 2 ≤ b) (m : Nat) :
    natDigitsLE b (m + 1) = digitChar ((m + 1) % b) :: natDigitsLE b ((m + 1) / b) := by
  have hdiv : (m + 1) / b < m + 1 := Nat.div_lt_self (Nat.succ_pos m) (by omega)
  show natDigitsLEAux b (m + 1) (m + 1) = _
  simp only [natDigitsLEAux, Nat.succ_ne_zero, if_neg]
  rw [natDigitsLEAux_eq b hb m ((m + 1) / b) (by omega)]
  simp

theorem baseLEVal_natDigitsLE (b : Nat) (hb : 2 ≤ b) (hb16 : b ≤ 16) :
    ∀ n, baseLEVal b (natDigitsLE b n) = n := by
  intro n
  induction n using Nat.strong_induction_on with
  | _ n ih =>
    cases n with
    | zero => simp [natDigitsLE_zero, baseLEVal]
    | succ m =>
      have hdiv : (m + 1) / b < m + 1 := Nat.div_lt_self (Nat.succ_pos m) (by omega)
      rw [natDigitsLE_succ b hb m]
      show digitVal (digitChar ((m + 1) % b)) + b * baseLEVal b (natDigitsLE b ((m + 1) / b))
          = m + 1
      rw [ih _ hdiv, digitVal_digitChar _ (by
        have := Nat.mod_lt (m + 1) (show 0 < b by omega)
        omega)]
      exact Nat.mod_add_div (m + 1) b

theorem natDigitsLE_mem_hex (b : Nat) (hb : 2 ≤ b) (hb16 : b ≤ 16) :
    ∀ n, ∀ c ∈ natDigitsLE b n, c ∈ strOf "0123456789abcdef" := by
  intro n
  induction n using Nat.strong_induction_on with
  | _ n ih =>
    cases n with
    | zero => simp [natDigitsLE_zero]
    | succ m =>
      have hdiv : (m + 1) / b < m + 1 := Nat.div_lt_self (Nat.succ_pos m) (by omega)
      rw [natDigitsLE_succ b hb m]
      intro c hc
      rcases List.mem_cons.mp hc with h | h
      · subst h
        exact digitChar_mem_hex _ (by
          have := Nat.mod_lt (m + 1) (show 0 < b by omega)
          omega)
      · exact ih _ hdiv c h

theorem natDigitsLE_length_le (b : Nat) (hb : 2 ≤ b) :
    ∀ k n, n < b ^ k → (natDigitsLE b n).length ≤ k := by
  intro k
  induction k with
  | zero =>
    intro n hn
    have : n = 0 := by simpa using hn
    subst this
    simp [natDigitsLE_zero]
  | succ j ih =>
    intro n hn
    cases n with
    | zero => simp [natDigitsLE_zero]
    | succ m =>
      rw [natDigitsLE_succ b hb m]
      have hq : (m + 1) / b < b ^ j := by
        rw [Nat.div_lt_iff_lt_mul (show 0 < b by omega)]
        calc m + 1 < b ^ (j + 1) := hn
          _ = b ^ j * b := by ring
      simpa using ih _ hq

end DigitLemmas

section DecimalLemmas

theorem decBEVal_replicate_zero (k : Nat) (s : Str) :
    decBEVal (List.replicate k '0' ++ s) = decBEVal s := by
  induction k with
  | zero => rfl
  | succ j ih =>
    show decBEVal (('0' :: List.replicate j '0') ++ s) = decBEVal s
    simp only [decBEVal, List.cons_append, List.foldl_cons] at ih ⊢
    simpa [digitVal, strOf] using ih

theorem decBEVal_append_single (x : Str) (c : Char) :
    decBEVal (x ++ [c]) = 10 * decBEVal x + digitVal c := by
  simp [decBEVal, List.foldl_append]

theorem decBEVal_reverse (le : Str) : decBEVal le.reverse = baseLEVal 10 le := by
  induction le with
  | nil => rfl
  | cons c r ih =>
    rw [List.reverse_cons, decBEVal_append_single, ih]
    show 10 * baseLEVal 10 r + digitVal c = digitVal c + 10 * baseLEVal 10 r
    ring

theorem decBEVal_natToDec (n : Nat) : decBEVal (natToDec n) = n := by
  cases n with
  | zero => simp [natToDec, decBEVal, digitVal, strOf]
  | succ m =>
    rw [natToDec, if_neg (Nat.succ_ne_zero m), decBEVal_reverse]
    exact baseLEVal_natDigitsLE 10 (by omega) (by omega) (m + 1)

theorem decBEVal_padLeft3_natToDec (n : Nat) : decBEVal (padLeft3 (natToDec n)) = n := by
  rw [padLeft3, decBEVal_replicate_zero, decBEVal_natToDec]

theorem natDigitsLE10_isDigit : ∀ n, ∀ c ∈ natDigitsLE 10 n, c.isDigit = true := by
  intro n
  induction n using Nat.strong_induction_on with
  | _ n ih =>
    cases n with
    | zero => simp [natDigitsLE_zero]
    | succ m =>
      have hdiv : (m + 1) / 10 < m + 1 := Nat.div_lt_self (Nat.succ_pos m) (by omega)
      rw [natDigitsLE_succ 10 (by omega) m]
      intro c hc
      rcases List.mem_cons.mp hc with h | h
      · subst h
        have hk : (m + 1) % 10 < 10 := Nat.mod_lt (m + 1) (by omega)
        revert hk
        have : ∀ k < 10, (digitChar k).isDigit = true := by decide
        exact this _
      · exact ih _ hdiv c h

theorem natToDec_all_digits (n : Nat) : ∀ c ∈ natToDec n, c.isDigit = true := by
  intro c hc
  cases n with
  | zero =>
    simp [natToDec] at hc
    subst hc
    decide
  | succ m =>
    rw [natToDec, if_neg (Nat.succ_ne_zero m), List.mem_reverse] at hc
    exact natDigitsLE10_isDigit (m + 1) c hc

theorem padLeft3_length (s : Str) (h : s.length ≤ 3) : (padLeft3 s).length = 3 := by
  simp [padLeft3]
  omega

end DecimalLemmas

/-!
Modelled from the spec: the SigningEngine (the external PyJWT library is
not part of the repository).  A signed token is the dot-joined string
`header.payload.signature` where the header is fully determined by the
algorithm, the payload segment carries the claims `{sub, exp}`, and the
signature is a keyed digest of `header.payload`.  The segments are
rendered over a dot-free alphabet (the reference behaviour uses
base64url; the model uses an injective hexadecimal rendering with the
letter `g` as terminator, which preserves every property the claims
depend on: injectivity, dot-freeness, a signature of bounded length that
depends on secret, algorithm and message, and decode failing on any
string that is not a well-formed encoding).
-/

/-- Hexadecimal digits of `n` followed by a `g` terminator: the basic
dot-free building block of the modelled wire format. -/
def natGSeg (n : Nat) : Str := natDigitsLE 16 n ++ ['g']

/-- Injective dot-free rendering of one character. -/
def encodeCharSeg (c : Char) : Str := natGSeg c.toNat

/-- Injective dot-free rendering of a string. -/
def encodeStrSeg (s : Str) : Str := (s.map encodeCharSeg).flatten

/-- Reads one `natGSeg` block off the front of a string: the digits up
to the first `g`.  Fails when no terminator follows or when a non-digit
appears before it. -/
def parseNatG (l : Str) : Option (Nat × Str) :=
  match l.dropWhile (· != 'g') with
  | 'g' :: r =>
    if (l.takeWhile (· != 'g')).all (fun c => (strOf "0123456789abcdef").contains c) then
      some (baseLEVal 16 (l.takeWhile (· != 'g')), r)
    else none
  | _ => none

/-- Fuel-driven inverse of `encodeStrSeg` (structural recursion on the
fuel so that the kernel can evaluate it). -/
def decodeStrSegAux : Nat → Str → Option Str
  | _, [] => some []
  | 0, _ :: _ => none
  | fuel + 1, l =>
    match parseNatG l with
    | some (k, r) =>
      match decodeStrSegAux fuel r with
      | some t => some (Char.ofNat k :: t)
      | none => none
    | none => none

/-- Inverse of `encodeStrSeg`. -/
def decodeStrSeg (l : Str) : Option Str := decodeStrSegAux l.length l

/-- Payload segment of a signed token: the expiry timestamp followed by
the rendered subject. -/
def payloadSeg (sub : Str) (exp : Nat) : Str := natGSeg exp ++ encodeStrSeg sub

/-- Inverse of `payloadSeg`. -/
def decodePayloadSeg (p : Str) : Option (Str × Nat) :=
  match parseNatG p with
  | some (e, r) =>
    match decodeStrSeg r with
    | some sub => some (sub, e)
    | none => none
  | none => none

/-- Header segment of a signed token: fully determined by the algorithm
name, byte-identical across calls for the same configuration. -/
def headerFor (alg : Str) : Str := encodeStrSeg alg

/-- Keyed digest value used by the modelled signature: a polynomial
rolling hash reduced modulo `2 ^ 64`. -/
def polyHash (s : Str) : Nat :=
  s.foldl (fun a c => (a * 131 + c.toNat) % (2 ^ 64)) 5381

/-- Signature segment over `msg`, keyed by algorithm and secret. -/
def macSig (alg key msg : Str) : Str := natGSeg (polyHash (alg ++ '.' :: key ++ '.' :: msg))

/-- Prepends a character to the first piece of a split. -/
def consHead (c : Char) : List Str → List Str
  | s :: ss => (c :: s) :: ss
  | [] => [[c]]

/-- Splits a string at every dot, in the manner of Python
`"a.b.c".split(".")`: the empty string splits into one empty piece. -/
def splitOnDot : Str → List Str
  | [] => [[]]
  | c :: r => if c = '.' then [] :: splitOnDot r else consHead c (splitOnDot r)

section SegmentLemmas

theorem takeWhile_append_stop (p : Char → Bool) (x : Char) (hx : p x = false) :
    ∀ a r, (∀ c ∈ a, p c = true) →
      (a ++ x :: r).takeWhile p = a ∧ (a ++ x :: r).dropWhile p = x :: r := by
  intro a
  induction a with
  | nil =>
    intro r _
    constructor <;> simp [List.takeWhile, List.dropWhile, hx]
  | cons c t ih =>
    intro r hmem
    have hc : p c = true := hmem c (List.mem_cons_self c t)
    have ht := ih r (fun d hd => hmem d (List.mem_cons_of_mem c hd))
    constructor
    · show ((c :: t) ++ x :: r).takeWhile p = c :: t
      simp [List.takeWhile, hc, ht.1]
    · show ((c :: t) ++ x :: r).dropWhile p = x :: r
      simp [List.dropWhile, hc, ht.2]

theorem natGSeg_ne_g (n : Nat) : ∀ c ∈ natDigitsLE 16 n, (c != 'g') = true := by
  intro c hc
  have h := natDigitsLE_mem_hex 16 (by omega) (by omega) n c hc
  revert h
  have : ∀ d ∈ strOf "0123456789abcdef", (d != 'g') = true := by decide
  exact this c

theorem parseNatG_natGSeg (n : Nat) (r : Str) :
    parseNatG (natGSeg n ++ r) = some (n, r) := by
  have hsplit := takeWhile_append_stop (· != 'g') 'g' (by decide)
    (natDigitsLE 16 n) r (natGSeg_ne_g n)
  have hform : natGSeg n ++ r = natDigitsLE 16 n ++ 'g' :: r := by
    simp [natGSeg]
  have hall : (natDigitsLE 16 n).all (fun c => (strOf "0123456789abcdef").contains c) = true := by
    rw [List.all_eq_true]
    intro c hc
    have := natDigitsLE_mem_hex 16 (by omega) (by omega) n c hc
    simpa [List.contains] using this
  have hval := baseLEVal_natDigitsLE 16 (by omega) (by omega) n
  rw [hform, parseNatG]
  simp only [hsplit.1, hsplit.2, hall, hval, if_true]

theorem encodeStrSeg_cons (c : Char) (s : Str) :
    encodeStrSeg (c :: s) = encodeCharSeg c ++ encodeStrSeg s := by
  simp [encodeStrSeg]

theorem encodeCharSeg_length_pos (c : Char) : 1 ≤ (encodeCharSeg c).length := by
  simp [encodeCharSeg, natGSeg]

theorem decodeStrSegAux_enc :
    ∀ (s : Str) (fuel : Nat), (encodeStrSeg s).length ≤ fuel →
      decodeStrSegAux fuel (encodeStrSeg s) = some s := by
  intro s
  induction s with
  | nil => intro fuel _; cases fuel <;> rfl
  | cons c t ih =>
    intro fuel hlen
    rw [encodeStrSeg_cons] at hlen ⊢
    have hpos : 1 ≤ (encodeCharSeg c ++ encodeStrSeg t).length := by
      simp only [List.length_append]
      have := encodeCharSeg_length_pos c
      omega
    cases fuel with
    | zero => omega
    | succ f =>
      have hne : encodeCharSeg c ++ encodeStrSeg t ≠ [] := by
        intro h
        rw [h] at hpos
        simp at hpos
      have hstep : decodeStrSegAux (f + 1) (encodeCharSeg c ++ encodeStrSeg t)
          = match parseNatG (encodeCharSeg c ++ encodeStrSeg t) with
            | some (k, r) =>
              match decodeStrSegAux f r with
              | some u => some (Char.ofNat k :: u)
              | none => none
            | none => none := by
        cases hval : encodeCharSeg c ++ encodeStrSeg t with
        | nil => exact absurd hval hne
        | cons a b => rfl
      rw [hstep, show encodeCharSeg c = natGSeg c.toNat from rfl, parseNatG_natGSeg]
      have htail : (encodeStrSeg t).length ≤ f := by
        simp only [List.length_append] at hlen
        have := encodeCharSeg_length_pos c
        omega
      show (match decodeStrSegAux f (encodeStrSeg t) with
            | some u => some (Char.ofNat c.toNat :: u)
            | none => none) = some (c :: t)
      rw [ih f htail, Char.ofNat_toNat]

theorem decodeStrSeg_enc (s : Str) : decodeStrSeg (encodeStrSeg s) = some s :=
  decodeStrSegAux_enc s (encodeStrSeg s).length le_rfl

theorem decodePayloadSeg_enc (sub : Str) (exp : Nat) :
    decodePayloadSeg (payloadSeg sub exp) = some (sub, exp) := by
  rw [decodePayloadSeg, payloadSeg, parseNatG_natGSeg]
  simp [decodeStrSeg_enc]

theorem decodePayloadSeg_nil : decodePayloadSeg [] = none := by decide

end SegmentLemmas

section SplitLemmas

theorem splitOnDot_ne_nil : ∀ l : Str, splitOnDot l ≠ [] := by
  intro l
  induction l with
  | nil => simp [splitOnDot]
  | cons c r ih =>
    by_cases hc : c = '.'
    · simp [splitOnDot, hc]
    · simp only [splitOnDot, if_neg hc]
      cases hs : splitOnDot r with
      | nil => simp [consHead]
      | cons s ss => simp [consHead]

theorem splitOnDot_dotFree (l : Str) (h : ∀ c ∈ l, c ≠ '.') : splitOnDot l = [l] := by
  induction l with
  | nil => rfl
  | cons c r ih =>
    have hc : c ≠ '.' := h c (List.mem_cons_self c r)
    have hr := ih (fun d hd => h d (List.mem_cons_of_mem c hd))
    simp [splitOnDot, if_neg hc, hr, consHead]

theorem splitOnDot_append (a r : Str) (h : ∀ c ∈ a, c ≠ '.') :
    splitOnDot (a ++ '.' :: r) = a :: splitOnDot r := by
  induction a with
  | nil => simp [splitOnDot]
  | cons c t ih =>
    have hc : c ≠ '.' := h c (List.mem_cons_self c t)
    have ht := ih (fun d hd => h d (List.mem_cons_of_mem c hd))
    simp only [List.cons_append, splitOnDot, if_neg hc]
    have ht2 : splitOnDot (t.append ('.' :: r)) = t :: splitOnDot r := ht
    rw [ht2]
    rfl

theorem splitOnDot_three (h p s : Str)
    (hh : ∀ c ∈ h, c ≠ '.') (hp : ∀ c ∈ p, c ≠ '.') (hs : ∀ c ∈ s, c ≠ '.') :
    splitOnDot (h ++ '.' :: (p ++ '.' :: s)) = [h, p, s] := by
  rw [splitOnDot_append h (p ++ '.' :: s) hh, splitOnDot_append p s hp,
    splitOnDot_dotFree s hs]

end SplitLemmas

section CharsetLemmas

theorem hexg_char_props :
    ∀ c ∈ strOf "0123456789abcdefg", c ≠ '.' ∧ c ≠ 'B' ∧ c.isWhitespace = false := by
  decide

theorem natGSeg_mem (n : Nat) : ∀ c ∈ natGSeg n, c ∈ strOf "0123456789abcdefg" := by
  intro c hc
  rcases List.mem_append.mp hc with h | h
  · have := natDigitsLE_mem_hex 16 (by omega) (by omega) n c h
    revert this
    have hsub : ∀ d ∈ strOf "0123456789abcdef", d ∈ strOf "0123456789abcdefg" := by decide
    exact hsub c
  · simp only [List.mem_singleton] at h
    subst h
    decide

theorem encodeStrSeg_mem (s : Str) : ∀ c ∈ encodeStrSeg s, c ∈ strOf "0123456789abcdefg" := by
  induction s with
  | nil => simp [encodeStrSeg]
  | cons a t ih =>
    intro c hc
    rw [encodeStrSeg_cons] at hc
    rcases List.mem_append.mp hc with h | h
    · exact natGSeg_mem a.toNat c h
    · exact ih c h

theorem payloadSeg_mem (sub : Str) (exp : Nat) :
    ∀ c ∈ payloadSeg sub exp, c ∈ strOf "0123456789abcdefg" := by
  intro c hc
  rcases List.mem_append.mp hc with h | h
  · exact natGSeg_mem exp c h
  · exact encodeStrSeg_mem sub c h

theorem macSig_mem (alg key msg : Str) :
    ∀ c ∈ macSig alg key msg, c ∈ strOf "0123456789abcdefg" :=
  natGSeg_mem _

theorem headerFor_mem (alg : Str) : ∀ c ∈ headerFor alg, c ∈ strOf "0123456789abcdefg" :=
  encodeStrSeg_mem alg

theorem isDigit_char_props (c : Char) (h : c.isDigit = true) :
    c ≠ '.' ∧ c ≠ 'B' ∧ c.isWhitespace = false := by
  refine ⟨?_, ?_, ?_⟩
  · intro hc; subst hc; simp [Char.isDigit] at h
  · intro hc; subst hc; simp [Char.isDigit] at h
  · cases hw : c.isWhitespace with
    | false => rfl
    | true =>
      exfalso
      simp only [Char.isWhitespace, Bool.or_eq_true, decide_eq_true_eq] at hw
      rcases hw with ((hw | hw) | hw) | hw <;> (subst hw; simp [Char.isDigit] at h)

theorem padLeft3_natToDec_all_digits (n : Nat) :
    ∀ c ∈ padLeft3 (natToDec n), c.isDigit = true := by
  intro c hc
  rcases List.mem_append.mp hc with h | h
  · have := List.eq_of_mem_replicate h
    subst this
    decide
  · exact natToDec_all_digits n c h

end CharsetLemmas

/-- Instants at whole-second granularity: seconds since the Unix epoch. -/
abbrev Datetime := Nat

/-- Timestamp of `datetime.datetime.max` (9999-12-31 23:59:59 UTC) after
whole-second truncation: the sentinel expiry of an unbounded token. -/
def dtMax : Datetime := 253402300799

/-- Configuration consumed by the token scheme: `app_secret_key` (the
pydantic `SecretStr` is modelled by the secret value itself) and
`jwt_algorithm` from `AppSettings`. -/
structure Settings where
  app_secret_key : Str
  jwt_algorithm : Str

/-- Exceptions of the modelled signing library: `ExpiredSignatureError`
and its catch-all superclass `InvalidTokenError` (every decoding failure
other than expiry is collapsed into the latter, which is how
`decode_api_token` consumes them). -/
inductive JwtError
  | expiredSignature
  | invalidToken
deriving DecidableEq

/-- Modelled from the spec: `jwt.encode` of the payload `{sub, exp}`.
Produces `header.payload.signature` where the header depends only on
the algorithm and the signature is a keyed digest of `header.payload`. -/
def jwtLibEncode (sub : Str) (exp : Datetime) (key alg : Str) : Str :=
  headerFor alg ++ '.' :: payloadSeg sub exp
    ++ '.' :: macSig alg key (headerFor alg ++ '.' :: payloadSeg sub exp)

/-- Modelled from the spec: `jwt.decode` with the configured key and
algorithm list.  Splits on dots into exactly three segments, checks the
header and the signature, parses the payload, and finally validates the
expiry claim against the current time.  A token whose expiry equals the
current instant counts as expired, which is the behaviour the repository
test suite pins down (`test_token_with_exactly_current_time_expiration`). -/
def jwtLibDecode (token : Str) (key alg : Str) (now : Nat) : Except JwtError (Str × Nat) :=
  match splitOnDot token with
  | [h, p, s] =>
    if h = headerFor alg ∧ s = macSig alg key (h ++ '.' :: p) then
      match decodePayloadSeg p with
      | some (sub, exp) => if exp ≤ now then .error .expiredSignature else .ok (sub, exp)
      | none => .error .invalidToken
    else .error .invalidToken
  | _ => .error .invalidToken

/-- Claims payload of `src/modules/auth/tokens.py`: dataclass
`JWTPayload` with subject `sub` and optional expiry `exp`. -/
structure JWTPayload where
  sub : Str
  exp : Option Datetime
deriving DecidableEq

/-- Function `jwt_encode` of `src/modules/auth/tokens.py`.  The Python
function mutates its `payload` argument (`payload.exp = expires_at or
datetime.datetime.max`) before encoding; the mutation is modelled by
returning the updated payload next to the encoded token.  A `None`
`expires_at` falls back to `datetime.datetime.max` (no datetime value is
falsy in Python, so `or` distinguishes exactly `None`). -/
def jwt_encode (payload : JWTPayload) (settings : Settings) (expires_at : Option Datetime) :
    JWTPayload × Str :=
  let payload1 : JWTPayload := { payload with exp := some (expires_at.getD dtMax) }
  (payload1,
   jwtLibEncode payload1.sub (expires_at.getD dtMax)
     settings.app_secret_key settings.jwt_algorithm)

/-- Function `jwt_decode` of `src/modules/auth/tokens.py`: decodes via
the library and rebuilds a `JWTPayload` from the numeric expiry.  The
`ValueError` branch for a non-numeric `exp` claim is unreachable in the
model because the modelled library only ever yields a numeric expiry. -/
def jwt_decode (jwt_token : Str) (settings : Settings) (now : Nat) :
    Except JwtError JWTPayload :=
  match jwtLibDecode jwt_token settings.app_secret_key settings.jwt_algorithm now with
  | .ok (sub, exp) => .ok ⟨sub, some exp⟩
  | .error e => .error e

/-- Result of `make_api_token`: the bearer value and its stored hash. -/
structure GeneratedToken where
  value : Str
  hashed_value : Str
deriving DecidableEq

/-- Function `hash_token` of `src/modules/auth/tokens.py`: the SHA-512
hex digest of the identifier, a 128-hex-character string.  The digest
itself is modelled by a fixed executable keyed-sum digest rendered as
128 hexadecimal characters; every property the claims use (determinism,
fixed shape, one-way use as a lookup key) is preserved. -/
def hash_token (token : Str) : Str :=
  List.replicate (128 - (natDigitsLE 16 (polyHash token)).length) '0'
    ++ (natDigitsLE 16 (polyHash token)).reverse

/-- Function `make_api_token` of `src/modules/auth/tokens.py`.  The
random identifier (three decimal digits followed by six hex characters
of a fresh UUID) is an input of the model, so that randomness is
explicit.  The encoded token is split on dots; the header segment is
discarded, and the decimal length of the signature segment, left-padded
to three digits, is appended after payload and signature.  The `none`
result models the `ValueError` that tuple unpacking would raise if the
split did not yield exactly three segments (provably unreachable). -/
def make_api_token (expires_at : Option Datetime) (settings : Settings)
    (token_identifier : Str) : Option GeneratedToken :=
  let expires := expires_at.getD dtMax
  match splitOnDot (jwt_encode ⟨token_identifier, some expires⟩ settings (some expires)).2 with
  | [_, payload_part, signature_part] =>
    some ⟨payload_part ++ signature_part ++ padLeft3 (natToDec signature_part.length),
          hash_token token_identifier⟩
  | _ => none

/-- Distinct `HTTPException(status_code=401, detail=...)` values raised
by the verification pipeline, one constructor per detail message. -/
inductive ApiError
  | invalidTokenSignature -- "Invalid token signature"
  | tokenExpired -- "Token expired"
  | invalidToken -- "Invalid token"
  | notAuthenticated -- "Not authenticated"
  | noIdentity -- "Not authenticated: token has no identity"
  | unknownToken -- "Not authenticated: unknown token"
  | inactiveToken -- "Not authenticated: inactive token"
  | inactiveUser -- "Not authenticated: user is not active"
deriving DecidableEq

/-- Failure taxonomy of the specification (section 7). -/
inductive FailKind
  | MissingCredential
  | MalformedToken
  | ExpiredToken
  | UnknownToken
  | RevokedToken
deriving DecidableEq

/-- Mapping of each raised error to its kind in the taxonomy of the
specification. -/
def errKind : ApiError → FailKind
  | .invalidTokenSignature => .MalformedToken
  | .tokenExpired => .ExpiredToken
  | .invalidToken => .MalformedToken
  | .notAuthenticated => .MissingCredential
  | .noIdentity => .MissingCredential
  | .unknownToken => .UnknownToken
  | .inactiveToken => .RevokedToken
  | .inactiveUser => .RevokedToken

/-- Result of `decode_api_token`: a payload, an `HTTPException(401)`,
or an unhandled exception escaping the function (modelling a crash). -/
inductive DecodeOutcome
  | ok (payload : JWTPayload)
  | httpError (e : ApiError)
  | unhandled
deriving DecidableEq

/-- Function `decode_api_token` of `src/modules/auth/tokens.py`.  A
throwaway `jwt_encode` of a placeholder payload recovers the canonical
header.  The last three characters are split off as the signature-length
marker (`sign_len_prefix` in the source); a non-`isnumeric` marker is
rejected with 401, after which `int()` is applied — which raises an
uncaught `ValueError` (modelled as `.unhandled`) on the Unicode
characters that are numeric but not decimal digits.  Slicing then uses
Python semantics, including `token[:-0] == ""` and `token[-0:] == token`
when the parsed length is zero.  Library errors are caught and mapped to
401 responses. -/
def decode_api_token (token : Str) (settings : Settings) (now : Nat) : DecodeOutcome :=
  match splitOnDot (jwt_encode ⟨strOf "example", none⟩ settings none).2 with
  | [header_part, _, _] =>
    let token1 := pyTakeNeg token 3
    let sign_len_tag := pyDropNeg token 3
    if !pyIsNumericStr sign_len_tag then .httpError .invalidTokenSignature
    else
      match pyIntOfStr sign_len_tag with
      | none => .unhandled
      | some signature_length =>
        let payload_part := pyTakeNeg token1 signature_length
        let signature_part := pyDropNeg token1 signature_length
        match jwt_decode (header_part ++ '.' :: payload_part ++ '.' :: signature_part)
            settings now with
        | .error .expiredSignature => .httpError .tokenExpired
        | .error .invalidToken => .httpError .invalidToken
        | .ok payload => .ok payload
  | _ => .unhandled

/-- Owning user of a stored token record (`users.is_active`). -/
structure UserRecord where
  is_active : Bool
deriving DecidableEq

/-- Stored token record consulted by verification: its own active flag
and its owning user. -/
structure TokenRecord where
  is_active : Bool
  user : UserRecord
deriving DecidableEq

/-- Result of `verify_api_token`: the verified identity string, an
`HTTPException(401)`, or an unhandled exception. -/
inductive VerifyOutcome
  | ok (identity : Str)
  | httpError (e : ApiError)
  | unhandled
deriving DecidableEq

/-- Credential extraction of `verify_api_token`:
`(auth_token or "").replace("Bearer", "").strip()`. -/
def extract_credential (raw : Str) : Str := stripStr (replaceBearer raw)

/-- Body of `verify_api_token` after credential extraction (`cred` is
the already-extracted `auth_token` value): the empty check, the decode,
the subject check, the store lookup and the activity gates, in source
order.  Split out of `verify_api_token` so that the pipeline can be
analysed for a fixed credential. -/
def verify_checks (cred : Str) (settings : Settings) (now : Nat)
    (store : Str → Option TokenRecord) : VerifyOutcome × Bool :=
  if cred = [] then (.httpError .notAuthenticated, false)
  else
    match decode_api_token cred settings now with
    | .httpError e => (.httpError e, false)
    | .unhandled => (.unhandled, false)
    | .ok payload =>
      if payload.sub = [] then (.httpError .noIdentity, false)
      else
        match store (hash_token payload.sub) with
        | none => (.httpError .unknownToken, true)
        | some tok =>
          if tok.is_active = false then (.httpError .inactiveToken, true)
          else if tok.user.is_active = false then (.httpError .inactiveUser, true)
          else (.ok cred, true)

/-- Function `verify_api_token` of `src/modules/auth/tokens.py`.  The
request is abstracted to its method string; the `Authorization` header
value is `auth_token` (absent modelled as `none`); the token store
(`TokenRepository.get_by_token` over the hashed value) is a function
from hashes to optional records.  The second component of the result
records whether the store was queried during the request. -/
def verify_api_token (method : Str) (auth_token : Option Str) (settings : Settings)
    (now : Nat) (store : Str → Option TokenRecord) : VerifyOutcome × Bool :=
  if method = strOf "OPTIONS" then (.ok [], false)
  else verify_checks (extract_credential (auth_token.getD [])) settings now store

/-- Signature segment of a token issued with the given settings, subject
and expiry (helper naming for the lemmas below). -/
def issuedSig (s : Settings) (sub : Str) (exp : Datetime) : Str :=
  macSig s.jwt_algorithm s.app_secret_key
    (headerFor s.jwt_algorithm ++ '.' :: payloadSeg sub exp)

/-- Compact wire value produced by issuance: payload segment, signature
segment, then the three-digit decimal signature length. -/
def issuedCompact (s : Settings) (sub : Str) (exp : Datetime) : Str :=
  payloadSeg sub exp ++ issuedSig s sub exp
    ++ padLeft3 (natToDec (issuedSig s sub exp).length)

section PipelineLemmas

theorem mem_hexg_ne_dot (l : Str) (hmem : ∀ c ∈ l, c ∈ strOf "0123456789abcdefg") :
    ∀ c ∈ l, c ≠ '.' :=
  fun c hc => (hexg_char_props c (hmem c hc)).1

theorem splitOnDot_jwtLibEncode (sub : Str) (exp : Datetime) (key alg : Str) :
    splitOnDot (jwtLibEncode sub exp key alg)
      = [headerFor alg, payloadSeg sub exp,
         macSig alg key (headerFor alg ++ '.' :: payloadSeg sub exp)] := by
  have hform : jwtLibEncode sub exp key alg
      = headerFor alg ++ '.' :: (payloadSeg sub exp
          ++ '.' :: macSig alg key (headerFor alg ++ '.' :: payloadSeg sub exp)) := by
    simp [jwtLibEncode]
  rw [hform]
  exact splitOnDot_three _ _ _
    (mem_hexg_ne_dot _ (headerFor_mem alg))
    (mem_hexg_ne_dot _ (payloadSeg_mem sub exp))
    (mem_hexg_ne_dot _ (macSig_mem _ _ _))

theorem foldl_hash_lt (s : Str) : ∀ a, a < 2 ^ 64 →
    s.foldl (fun a c => (a * 131 + c.toNat) % (2 ^ 64)) a < 2 ^ 64 := by
  induction s with
  | nil => intro a ha; simpa using ha
  | cons c r ih =>
    intro a ha
    simp only [List.foldl_cons]
    exact ih _ (Nat.mod_lt _ (by norm_num))

theorem polyHash_lt (s : Str) : polyHash s < 2 ^ 64 :=
  foldl_hash_lt s 5381 (by norm_num)

theorem natGSeg_length_le (n k : Nat) (h : n < 16 ^ k) : (natGSeg n).length ≤ k + 1 := by
  have := natDigitsLE_length_le 16 (by omega) k n h
  simp only [natGSeg, List.length_append, List.length_singleton]
  omega

theorem natGSeg_length_pos (n : Nat) : natGSeg n ≠ [] := by
  simp [natGSeg]

theorem macSig_length_le (alg key msg : Str) : (macSig alg key msg).length ≤ 17 := by
  have h := polyHash_lt (alg ++ '.' :: key ++ '.' :: msg)
  have h16 : (16 : Nat) ^ 16 = 2 ^ 64 := by norm_num
  exact natGSeg_length_le _ 16 (by omega)

theorem natToDec_length_le3 (n : Nat) (h : n ≤ 999) : (natToDec n).length ≤ 3 := by
  by_cases h0 : n = 0
  · subst h0; simp [natToDec]
  · rw [natToDec, if_neg h0, List.length_reverse]
    have h1000 : (10 : Nat) ^ 3 = 1000 := by norm_num
    exact natDigitsLE_length_le 10 (by omega) 3 n (by omega)

theorem pyTakeNeg_append (a b : Str) (h0 : b.length ≠ 0) : pyTakeNeg (a ++ b) b.length = a := by
  rw [pyTakeNeg, if_neg h0]
  have hl : (a ++ b).length - b.length = a.length := by
    rw [List.length_append]; omega
  rw [hl, List.take_left]

theorem pyDropNeg_append (a b : Str) (h0 : b.length ≠ 0) : pyDropNeg (a ++ b) b.length = b := by
  rw [pyDropNeg, if_neg h0]
  have hl : (a ++ b).length - b.length = a.length := by
    rw [List.length_append]; omega
  rw [hl, List.drop_left]

theorem pyIsNumericStr_of_digits (s : Str) (hne : s ≠ []) (h : ∀ c ∈ s, c.isDigit = true) :
    pyIsNumericStr s = true := by
  have h1 : s.isEmpty = false := by
    cases s with
    | nil => exact absurd rfl hne
    | cons c r => rfl
  have h2 : s.all pyIsNumericChar = true := by
    rw [List.all_eq_true]
    intro c hc
    simp [pyIsNumericChar, h c hc]
  simp [pyIsNumericStr, h1, h2]

theorem pyIntOfStr_digits (s : Str) (hne : s ≠ []) (h : ∀ c ∈ s, c.isDigit = true) :
    pyIntOfStr s = some (decBEVal s) := by
  have h1 : s.isEmpty = false := by
    cases s with
    | nil => exact absurd rfl hne
    | cons c r => rfl
  have h2 : s.all Char.isDigit = true := List.all_eq_true.mpr h
  simp [pyIntOfStr, h1, h2]

theorem padLeft3_ne_nil (s : Str) : padLeft3 s ≠ [] := by
  have hpos : 0 < (padLeft3 s).length := by
    rw [padLeft3, List.length_append, List.length_replicate]
    omega
  exact List.length_pos.mp hpos

theorem pyIntOfStr_padLeft3 (n : Nat) : pyIntOfStr (padLeft3 (natToDec n)) = some n := by
  rw [pyIntOfStr_digits _ (padLeft3_ne_nil _) (padLeft3_natToDec_all_digits n),
    decBEVal_padLeft3_natToDec]

end PipelineLemmas

section IssuanceLemmas

theorem jwt_encode_snd (payload : JWTPayload) (s : Settings) (e : Option Datetime) :
    (jwt_encode payload s e).2
      = jwtLibEncode payload.sub (e.getD dtMax) s.app_secret_key s.jwt_algorithm := rfl

theorem make_api_token_eq (e : Option Datetime) (s : Settings) (id : Str) :
    make_api_token e s id
      = some ⟨issuedCompact s id (e.getD dtMax), hash_token id⟩ := by
  have hsplit : splitOnDot (jwt_encode ⟨id, some (e.getD dtMax)⟩ s (some (e.getD dtMax))).2
      = [headerFor s.jwt_algorithm, payloadSeg id (e.getD dtMax), issuedSig s id (e.getD dtMax)] := by
    rw [jwt_encode_snd]
    exact splitOnDot_jwtLibEncode id (e.getD dtMax) s.app_secret_key s.jwt_algorithm
  simp only [make_api_token, hsplit]
  rfl

theorem issuedSig_length_le (s : Settings) (id : Str) (exp : Datetime) :
    (issuedSig s id exp).length ≤ 17 :=
  macSig_length_le _ _ _

theorem padLeft3_natToDec_mem_hexg (n : Nat) :
    ∀ c ∈ padLeft3 (natToDec n), c ∈ strOf "0123456789abcdefg" := by
  intro c hc
  have hhex : ∀ d ∈ strOf "0123456789abcdef", d ∈ strOf "0123456789abcdefg" := by decide
  rcases List.mem_append.mp hc with h | h
  · have := List.eq_of_mem_replicate h
    subst this
    decide
  · cases hn : n with
    | zero =>
      subst hn
      simp [natToDec] at h
      subst h
      decide
    | succ m =>
      subst hn
      rw [natToDec, if_neg (Nat.succ_ne_zero m), List.mem_reverse] at h
      exact hhex c (natDigitsLE_mem_hex 10 (by omega) (by omega) (m + 1) c h)

theorem issuedCompact_mem (s : Settings) (id : Str) (exp : Datetime) :
    ∀ c ∈ issuedCompact s id exp, c ∈ strOf "0123456789abcdefg" := by
  intro c hc
  rcases List.mem_append.mp hc with h | h
  · rcases List.mem_append.mp h with h2 | h2
    · exact payloadSeg_mem id exp c h2
    · exact macSig_mem _ _ _ c h2
  · exact padLeft3_natToDec_mem_hexg _ c h

end IssuanceLemmas

section DecodeLemmas

theorem jwt_decode_checked (s : Settings) (id : Str) (E : Datetime) (now : Nat) :
    jwt_decode (headerFor s.jwt_algorithm ++ '.' :: payloadSeg id E ++ '.' :: issuedSig s id E)
        s now
      = if E ≤ now then .error .expiredSignature else .ok ⟨id, some E⟩ := by
  have hnorm : headerFor s.jwt_algorithm ++ '.' :: payloadSeg id E ++ '.' :: issuedSig s id E
      = headerFor s.jwt_algorithm ++ '.' :: (payloadSeg id E ++ '.' :: issuedSig s id E) := by
    simp
  rw [hnorm]
  have hsplit : splitOnDot
      (headerFor s.jwt_algorithm ++ '.' :: (payloadSeg id E ++ '.' :: issuedSig s id E))
      = [headerFor s.jwt_algorithm, payloadSeg id E, issuedSig s id E] :=
    splitOnDot_three _ _ _ (mem_hexg_ne_dot _ (headerFor_mem _))
      (mem_hexg_ne_dot _ (payloadSeg_mem _ _)) (mem_hexg_ne_dot _ (macSig_mem _ _ _))
  have hlib : jwtLibDecode
      (headerFor s.jwt_algorithm ++ '.' :: (payloadSeg id E ++ '.' :: issuedSig s id E))
      s.app_secret_key s.jwt_algorithm now
      = if E ≤ now then .error .expiredSignature else .ok (id, E) := by
    simp only [jwtLibDecode, hsplit]
    simp [issuedSig, decodePayloadSeg_enc]
  by_cases hE : E ≤ now
  · simp [jwt_decode, hlib, hE]
  · simp [jwt_decode, hlib, hE]

theorem decode_api_token_issued (s : Settings) (id : Str) (E : Datetime) (now : Nat) :
    decode_api_token (issuedCompact s id E) s now
      = if E ≤ now then .httpError .tokenExpired else .ok ⟨id, some E⟩ := by
  have hheader : splitOnDot (jwt_encode ⟨strOf "example", none⟩ s none).2
      = [headerFor s.jwt_algorithm, payloadSeg (strOf "example") dtMax,
         macSig s.jwt_algorithm s.app_secret_key
           (headerFor s.jwt_algorithm ++ '.' :: payloadSeg (strOf "example") dtMax)] := by
    rw [jwt_encode_snd]
    exact splitOnDot_jwtLibEncode _ _ _ _
  have hpre_len : (padLeft3 (natToDec (issuedSig s id E).length)).length = 3 :=
    padLeft3_length _ (natToDec_length_le3 _ (by
      have := issuedSig_length_le s id E
      omega))
  have hform : issuedCompact s id E
      = (payloadSeg id E ++ issuedSig s id E)
          ++ padLeft3 (natToDec (issuedSig s id E).length) := by
    simp [issuedCompact]
  have htake3 : pyTakeNeg ((payloadSeg id E ++ issuedSig s id E)
      ++ padLeft3 (natToDec (issuedSig s id E).length)) 3
      = payloadSeg id E ++ issuedSig s id E := by
    rw [← hpre_len]
    exact pyTakeNeg_append _ _ (by omega)
  have hdrop3 : pyDropNeg ((payloadSeg id E ++ issuedSig s id E)
      ++ padLeft3 (natToDec (issuedSig s id E).length)) 3
      = padLeft3 (natToDec (issuedSig s id E).length) := by
    rw [← hpre_len]
    exact pyDropNeg_append _ _ (by omega)
  have hnum : pyIsNumericStr (padLeft3 (natToDec (issuedSig s id E).length)) = true :=
    pyIsNumericStr_of_digits _ (padLeft3_ne_nil _) (padLeft3_natToDec_all_digits _)
  have hint : pyIntOfStr (padLeft3 (natToDec (issuedSig s id E).length))
      = some (issuedSig s id E).length := pyIntOfStr_padLeft3 _
  have hsg0 : (issuedSig s id E).length ≠ 0 := by
    intro h
    exact natGSeg_length_pos _ (List.length_eq_zero.mp h)
  have htake2 : pyTakeNeg (payloadSeg id E ++ issuedSig s id E) (issuedSig s id E).length
      = payloadSeg id E := pyTakeNeg_append _ _ hsg0
  have hdrop2 : pyDropNeg (payloadSeg id E ++ issuedSig s id E) (issuedSig s id E).length
      = issuedSig s id E := pyDropNeg_append _ _ hsg0
  rw [hform]
  simp only [decode_api_token, hheader, htake3, hdrop3, hnum, hint, htake2, hdrop2,
    Bool.not_true, Bool.false_eq_true, if_false]
  rw [jwt_decode_checked]
  by_cases hE : E ≤ now
  · simp [hE]
  · simp [hE]

end DecodeLemmas

section ExtractionLemmas

theorem replaceBearerAux_id : ∀ (f : Nat) (t : Str), (∀ c ∈ t, c ≠ 'B') →
    replaceBearerAux f t = t := by
  intro f
  induction f with
  | zero =>
    intro t ht
    cases t <;> rfl
  | succ g ih =>
    intro t ht
    cases t with
    | nil => rfl
    | cons c rest =>
      have hc : c ≠ 'B' := ht c (List.mem_cons_self c rest)
      have htake : ¬((c :: rest).take 6 = strOf "Bearer") := by
        intro hEq
        rw [show (6 : Nat) = 5 + 1 from rfl, List.take_succ_cons,
          show strOf "Bearer" = 'B' :: strOf "earer" from rfl] at hEq
        injection hEq with h1 h2
        exact hc h1
      simp only [replaceBearerAux, if_neg htake]
      rw [ih rest (fun d hd => ht d (List.mem_cons_of_mem c hd))]

theorem replaceBearer_id (t : Str) (h : ∀ c ∈ t, c ≠ 'B') : replaceBearer t = t :=
  replaceBearerAux_id t.length t h

theorem dropWhile_not_ws (t : Str) (h : ∀ c ∈ t, c.isWhitespace = false) :
    t.dropWhile Char.isWhitespace = t := by
  cases t with
  | nil => rfl
  | cons c r => simp [List.dropWhile_cons, h c (List.mem_cons_self c r)]

theorem stripStr_id (t : Str) (h : ∀ c ∈ t, c.isWhitespace = false) : stripStr t = t := by
  rw [stripStr, dropWhile_not_ws t h,
    dropWhile_not_ws t.reverse (fun c hc => h c (List.mem_reverse.mp hc))]
  exact List.reverse_reverse t

theorem extract_credential_hexg (t : Str)
    (hmem : ∀ c ∈ t, c ∈ strOf "0123456789abcdefg") : extract_credential t = t := by
  have hB : ∀ c ∈ t, c ≠ 'B' := fun c hc => (hexg_char_props c (hmem c hc)).2.1
  have hw : ∀ c ∈ t, c.isWhitespace = false := fun c hc => (hexg_char_props c (hmem c hc)).2.2
  rw [extract_credential, replaceBearer_id t hB, stripStr_id t hw]

end ExtractionLemmas

section VerifyLemmas

theorem verify_checks_decode_ok (t : Str) (s : Settings) (now : Nat)
    (store : Str → Option TokenRecord) (p : JWTPayload) (hne : t ≠ [])
    (hd : decode_api_token t s now = .ok p) :
    verify_checks t s now store
      = if p.sub = [] then (.httpError .noIdentity, false)
        else
          match store (hash_token p.sub) with
          | none => (.httpError .unknownToken, true)
          | some tok =>
            if tok.is_active = false then (.httpError .inactiveToken, true)
            else if tok.user.is_active = false then (.httpError .inactiveUser, true)
            else (.ok t, true) := by
  simp only [verify_checks, if_neg hne, hd]

theorem verify_checks_decode_err (t : Str) (s : Settings) (now : Nat)
    (store : Str → Option TokenRecord) (e : ApiError) (hne : t ≠ [])
    (hd : decode_api_token t s now = .httpError e) :
    verify_checks t s now store = (.httpError e, false) := by
  simp only [verify_checks, if_neg hne, hd]

theorem verify_checks_queried (t : Str) (s : Settings) (now : Nat)
    (store : Str → Option TokenRecord)
    (hq : (verify_checks t s now store).2 = true) :
    ∃ p, decode_api_token t s now = DecodeOutcome.ok p ∧ p.sub ≠ [] := by
  by_cases hne : t = []
  · have hv : verify_checks t s now store = (.httpError .notAuthenticated, false) := by
      simp only [verify_checks, if_pos hne]
    rw [hv] at hq
    exact absurd hq (by decide)
  · cases hd : decode_api_token t s now with
    | httpError e =>
      rw [verify_checks_decode_err t s now store e hne hd] at hq
      simp at hq
    | unhandled =>
      have hv : verify_checks t s now store = (.unhandled, false) := by
        simp only [verify_checks, if_neg hne, hd]
      rw [hv] at hq
      exact absurd hq (by decide)
    | ok p =>
      rw [verify_checks_decode_ok t s now store p hne hd] at hq
      by_cases hsub : p.sub = []
      · rw [if_pos hsub] at hq
        exact absurd hq (by decide)
      · exact ⟨p, rfl, hsub⟩

theorem verify_api_eq (method : Str) (hdr : Option Str) (s : Settings) (now : Nat)
    (store : Str → Option TokenRecord) (hm : method ≠ strOf "OPTIONS") :
    verify_api_token method hdr s now store
      = verify_checks (extract_credential (hdr.getD [])) s now store := by
  simp [verify_api_token, hm]

theorem verify_store_queried (method : Str) (hdr : Option Str) (s : Settings) (now : Nat)
    (store : Str → Option TokenRecord)
    (hq : (verify_api_token method hdr s now store).2 = true) :
    ∃ p, decode_api_token (extract_credential (hdr.getD [])) s now
      = DecodeOutcome.ok p ∧ p.sub ≠ [] := by
  by_cases hm : method = strOf "OPTIONS"
  · simp only [verify_api_token, if_pos hm] at hq
    exact absurd hq (by decide)
  · rw [verify_api_eq method hdr s now store hm] at hq
    exact verify_checks_queried _ _ _ _ hq

end VerifyLemmas

section MoreDecodeLemmas

theorem decode_header_split (s : Settings) :
    splitOnDot (jwt_encode ⟨strOf "example", none⟩ s none).2
      = [headerFor s.jwt_algorithm, payloadSeg (strOf "example") dtMax,
         macSig s.jwt_algorithm s.app_secret_key
           (headerFor s.jwt_algorithm ++ '.' :: payloadSeg (strOf "example") dtMax)] := by
  rw [jwt_encode_snd]
  exact splitOnDot_jwtLibEncode _ _ _ _

theorem decode_nil (s : Settings) (now : Nat) :
    decode_api_token [] s now = .httpError .invalidTokenSignature := by
  simp only [decode_api_token, decode_header_split]
  rfl

theorem issuedCompact_ne_nil (s : Settings) (id : Str) (E : Datetime) :
    issuedCompact s id E ≠ [] := by
  intro h
  rw [issuedCompact] at h
  rcases List.append_eq_nil.mp h with ⟨h1, h2⟩
  exact padLeft3_ne_nil _ h2

theorem pyTakeNeg_all (l : Str) (n : Nat) (h : l.length < n) : pyTakeNeg l n = [] := by
  rw [pyTakeNeg, if_neg (by omega)]
  rw [show l.length - n = 0 by omega]
  exact List.take_zero l

theorem pyDropNeg_all (l : Str) (n : Nat) (h : l.length < n) : pyDropNeg l n = l := by
  rw [pyDropNeg, if_neg (by omega)]
  rw [show l.length - n = 0 by omega]
  exact List.drop_zero l

theorem jwt_decode_empty_payload (s : Settings) (t1 : Str) (now : Nat) :
    jwt_decode (headerFor s.jwt_algorithm ++ '.' :: ([] : Str) ++ '.' :: t1) s now
      = .error .invalidToken := by
  have hnorm : headerFor s.jwt_algorithm ++ '.' :: ([] : Str) ++ '.' :: t1
      = headerFor s.jwt_algorithm ++ '.' :: (('.' : Char) :: t1) := by
    simp
  rw [hnorm]
  have hsegs : splitOnDot (headerFor s.jwt_algorithm ++ '.' :: (('.' : Char) :: t1))
      = headerFor s.jwt_algorithm :: [] :: splitOnDot t1 := by
    rw [splitOnDot_append _ _ (mem_hexg_ne_dot _ (headerFor_mem _))]
    simp [splitOnDot]
  have hlib : jwtLibDecode (headerFor s.jwt_algorithm ++ '.' :: (('.' : Char) :: t1))
      s.app_secret_key s.jwt_algorithm now = .error .invalidToken := by
    cases hsp : splitOnDot t1 with
    | nil => exact absurd hsp (splitOnDot_ne_nil t1)
    | cons x xs =>
      cases xs with
      | nil =>
        simp only [jwtLibDecode, hsegs, hsp, decodePayloadSeg_nil]
        split <;> rfl
      | cons y ys =>
        simp only [jwtLibDecode, hsegs, hsp]
  simp [jwt_decode, hlib]

end MoreDecodeLemmas

section IdentityLemma

theorem verify_checks_ok_identity (t : Str) (s : Settings) (now : Nat)
    (store : Str → Option TokenRecord) (r : Str) (q : Bool)
    (h : verify_checks t s now store = (.ok r, q)) : r = t := by
  by_cases hne : t = []
  · have hv : verify_checks t s now store = (.httpError .notAuthenticated, false) := by
      simp only [verify_checks, if_pos hne]
    rw [hv] at h
    simp at h
  · cases hd : decode_api_token t s now with
    | httpError e =>
      rw [verify_checks_decode_err t s now store e hne hd] at h
      simp at h
    | unhandled =>
      have hv : verify_checks t s now store = (.unhandled, false) := by
        simp only [verify_checks, if_neg hne, hd]
      rw [hv] at h
      simp at h
    | ok p =>
      rw [verify_checks_decode_ok t s now store p hne hd] at h
      by_cases hsub : p.sub = []
      · rw [if_pos hsub] at h
        simp at h
      · rw [if_neg hsub] at h
        cases hst : store (hash_token p.sub) with
        | none =>
          simp only [hst] at h
          simp at h
        | some tok =>
          simp only [hst] at h
          by_cases ha : tok.is_active = false
          · rw [if_pos ha] at h
            simp at h
          · rw [if_neg ha] at h
            by_cases hu : tok.user.is_active = false
            · rw [if_pos hu] at h
              simp at h
            · rw [if_neg hu] at h
              injection h with h1 h2
              injection h1 with h3
              exact h3.symm

end IdentityLemma

/-- Fixture configuration used by the concrete witnesses. -/
def settings0 : Settings := ⟨strOf "k1", strOf "HS256"⟩

/-- Fixture identifier of the shape issued tokens use (three decimal
digits and six hex characters). -/
def idStr0 : Str := strOf "123abcdef"

/-- Fixture compact token issued for `idStr0` with expiry 1000. -/
def token0 : Str := issuedCompact settings0 idStr0 1000

/-- Fixture token store holding exactly the active record of `idStr0`,
owned by an active user. -/
def store0 : Str → Option TokenRecord :=
  fun h => if h = hash_token idStr0 then some ⟨true, ⟨true⟩⟩ else none

/-- Fixture compact token whose subject is the empty string. -/
def emptySubToken0 : Str := issuedCompact settings0 [] 1000

/-- C1: round trip of the compact codec — for every identifier string
`I` and every future expiry instant `E` (instants carry whole-second
precision, so `E` truncated to whole seconds is `E` itself), issuance
with claims `{subject = I, expiry = E}` succeeds, and decoding the
produced compact token with the same settings succeeds and yields
subject `I` and expiry `E`. -/
theorem issue_decode_roundtrip (I : Str) (E : Datetime) (now : Nat) (s : Settings)
    (h : now < E) :
    (make_api_token (some E) s I).isSome = true
    ∧ ∀ gt, make_api_token (some E) s I = some gt →
        decode_api_token gt.value s now = DecodeOutcome.ok ⟨I, some E⟩ := by
  constructor
  · rw [make_api_token_eq]
    rfl
  · intro gt hmk
    rw [make_api_token_eq] at hmk
    simp only [Option.getD_some] at hmk
    injection hmk with hgt
    subst hgt
    show decode_api_token (issuedCompact s I E) s now = _
    rw [decode_api_token_issued, if_neg (Nat.not_le.mpr h)]

theorem issue_decode_roundtrip_witness :
    decode_api_token token0 settings0 500 = DecodeOutcome.ok ⟨idStr0, some 1000⟩ :=
  (issue_decode_roundtrip idStr0 1000 500 settings0 (by decide)).2
    ⟨token0, hash_token idStr0⟩ (by decide)

/-- C2: expiry gating with short-circuit — a compact token issued with
an expiry strictly before the current time fails verification with the
`Token expired` error (kind `ExpiredToken`), and the token store is not
queried (first conjunct: the query flag is `false`); moreover the store
is only ever queried after a successful decode with a nonempty subject
(second conjunct). -/
theorem expired_token_short_circuit :
    (∀ (I : Str) (E : Datetime) (now : Nat) (s : Settings)
       (store : Str → Option TokenRecord) (method : Str) (gt : GeneratedToken),
       E < now → method ≠ strOf "OPTIONS" → make_api_token (some E) s I = some gt →
       verify_api_token method (some gt.value) s now store
         = (.httpError .tokenExpired, false)
       ∧ errKind .tokenExpired = .ExpiredToken)
    ∧ (∀ (method : Str) (hdr : Option Str) (s : Settings) (now : Nat)
       (store : Str → Option TokenRecord),
       (verify_api_token method hdr s now store).2 = true →
       ∃ p, decode_api_token (extract_credential (hdr.getD [])) s now = DecodeOutcome.ok p
         ∧ p.sub ≠ []) := by
  constructor
  · intro I E now s store method gt hE hm hmk
    rw [make_api_token_eq] at hmk
    simp only [Option.getD_some] at hmk
    injection hmk with hgt
    subst hgt
    refine ⟨?_, rfl⟩
    have hfix := extract_credential_hexg (issuedCompact s I E) (issuedCompact_mem s I E)
    have hne := issuedCompact_ne_nil s I E
    have hdec : decode_api_token (issuedCompact s I E) s now = .httpError .tokenExpired := by
      rw [decode_api_token_issued, if_pos (Nat.le_of_lt hE)]
    rw [verify_api_eq _ _ _ _ _ hm]
    show verify_checks (extract_credential (issuedCompact s I E)) s now store = _
    rw [hfix]
    exact verify_checks_decode_err _ _ _ _ _ hne hdec
  · exact fun method hdr s now store hq => verify_store_queried method hdr s now store hq

theorem expired_token_short_circuit_witness :
    verify_api_token (strOf "GET") (some token0) settings0 2000 store0
      = (.httpError .tokenExpired, false)
    ∧ errKind .tokenExpired = .ExpiredToken :=
  expired_token_short_circuit.1 idStr0 1000 2000 settings0 store0 (strOf "GET")
    ⟨token0, hash_token idStr0⟩ (by decide) (by decide) (by decide)

/-- C3: store-side revocation gates — for a request whose credential is
already in extracted form and decodes to a payload with a nonempty
subject: no record under the hashed subject fails with `unknown token`
(kind `UnknownToken`); an inactive record, or an active record whose
owning user is inactive, fails with the corresponding inactive error
(kind `RevokedToken`); and only a record that is active with an active
owner verifies successfully.  In every one of these cases the store was
queried. -/
theorem store_revocation_gates (t : Str) (s : Settings) (now : Nat)
    (store : Str → Option TokenRecord) (p : JWTPayload) (method : Str)
    (hm : method ≠ strOf "OPTIONS") (hfix : extract_credential t = t)
    (hd : decode_api_token t s now = DecodeOutcome.ok p) (hsub : p.sub ≠ []) :
    (store (hash_token p.sub) = none →
       verify_api_token method (some t) s now store = (.httpError .unknownToken, true)
       ∧ errKind .unknownToken = .UnknownToken)
    ∧ (∀ tok, store (hash_token p.sub) = some tok → tok.is_active = false →
       verify_api_token method (some t) s now store = (.httpError .inactiveToken, true)
       ∧ errKind .inactiveToken = .RevokedToken)
    ∧ (∀ tok, store (hash_token p.sub) = some tok → tok.is_active = true →
       tok.user.is_active = false →
       verify_api_token method (some t) s now store = (.httpError .inactiveUser, true)
       ∧ errKind .inactiveUser = .RevokedToken)
    ∧ (∀ tok, store (hash_token p.sub) = some tok → tok.is_active = true →
       tok.user.is_active = true →
       verify_api_token method (some t) s now store = (.ok t, true)) := by
  have hne : t ≠ [] := by
    intro h0
    rw [h0, decode_nil] at hd
    simp at hd
  have hbase : ∀ res : VerifyOutcome × Bool,
      (if p.sub = [] then (.httpError .noIdentity, false)
       else
         match store (hash_token p.sub) with
         | none => (.httpError .unknownToken, true)
         | some tok =>
           if tok.is_active = false then (.httpError .inactiveToken, true)
           else if tok.user.is_active = false then (.httpError .inactiveUser, true)
           else (.ok t, true)) = res →
      verify_api_token method (some t) s now store = res := by
    intro res hres
    rw [verify_api_eq _ _ _ _ _ hm]
    show verify_checks (extract_credential t) s now store = res
    rw [hfix, verify_checks_decode_ok t s now store p hne hd]
    exact hres
  refine ⟨?_, ?_, ?_, ?_⟩
  · intro hnone
    exact ⟨hbase _ (by rw [if_neg hsub]; simp only [hnone]), rfl⟩
  · intro tok hsome ha
    exact ⟨hbase _ (by rw [if_neg hsub]; simp only [hsome]; simp [ha]), rfl⟩
  · intro tok hsome ha hu
    exact ⟨hbase _ (by rw [if_neg hsub]; simp only [hsome]; simp [ha, hu]), rfl⟩
  · intro tok hsome ha hu
    exact hbase _ (by rw [if_neg hsub]; simp only [hsome]; simp [ha, hu])

theorem store_revocation_gates_witness :
    verify_api_token (strOf "GET") (some token0) settings0 500 (fun _ => none)
      = (.httpError .unknownToken, true)
    ∧ verify_api_token (strOf "GET") (some token0) settings0 500
        (fun _ => some ⟨false, ⟨true⟩⟩) = (.httpError .inactiveToken, true)
    ∧ verify_api_token (strOf "GET") (some token0) settings0 500
        (fun _ => some ⟨true, ⟨false⟩⟩) = (.httpError .inactiveUser, true)
    ∧ verify_api_token (strOf "GET") (some token0) settings0 500 store0
      = (.ok token0, true) :=
  ⟨((store_revocation_gates token0 settings0 500 (fun _ => none) ⟨idStr0, some 1000⟩
      (strOf "GET") (by decide) (by decide) (by decide) (by decide)).1 rfl).1,
   ((store_revocation_gates token0 settings0 500 (fun _ => some ⟨false, ⟨true⟩⟩)
      ⟨idStr0, some 1000⟩ (strOf "GET") (by decide) (by decide) (by decide)
      (by decide)).2.1 ⟨false, ⟨true⟩⟩ rfl rfl).1,
   ((store_revocation_gates token0 settings0 500 (fun _ => some ⟨true, ⟨false⟩⟩)
      ⟨idStr0, some 1000⟩ (strOf "GET") (by decide) (by decide) (by decide)
      (by decide)).2.2.1 ⟨true, ⟨false⟩⟩ rfl rfl rfl).1,
   (store_revocation_gates token0 settings0 500 store0 ⟨idStr0, some 1000⟩
      (strOf "GET") (by decide) (by decide) (by decide) (by decide)).2.2.2
     ⟨true, ⟨true⟩⟩ (by decide) rfl rfl⟩

/-- C4: signature-length bounds check — when the trailing 3-character
suffix of the input parses as an integer `n` that exceeds the length of
the remaining string (the input minus its last three characters), the
compact decoder fails with the `Invalid token` error, of kind
`MalformedToken`.  (The code has no explicit bounds check: the oversized
length makes the payload slice empty, and the reassembled token is then
rejected by the signed-claims decoder.) -/
theorem siglen_bounds_malformed (t : Str) (s : Settings) (now : Nat) (n : Nat)
    (hparse : pyIntOfStr (pyDropNeg t 3) = some n)
    (hgt : (pyTakeNeg t 3).length < n) :
    decode_api_token t s now = .httpError .invalidToken
    ∧ errKind .invalidToken = .MalformedToken := by
  refine ⟨?_, rfl⟩
  cases hb : (!(pyDropNeg t 3).isEmpty && (pyDropNeg t 3).all Char.isDigit) with
  | false => simp [pyIntOfStr, hb] at hparse
  | true =>
    rw [Bool.and_eq_true] at hb
    have hne : pyDropNeg t 3 ≠ [] := by
      intro h0
      rw [h0] at hb
      simp at hb
    have hdig : ∀ c ∈ pyDropNeg t 3, c.isDigit = true := by
      have h2 := hb.2
      rw [List.all_eq_true] at h2
      exact h2
    have hnum : pyIsNumericStr (pyDropNeg t 3) = true :=
      pyIsNumericStr_of_digits _ hne hdig
    have htake0 : pyTakeNeg (pyTakeNeg t 3) n = [] := pyTakeNeg_all _ n hgt
    have hdrop0 : pyDropNeg (pyTakeNeg t 3) n = pyTakeNeg t 3 := pyDropNeg_all _ n hgt
    simp only [decode_api_token, decode_header_split, hnum, Bool.not_true,
      Bool.false_eq_true, if_false, hparse, htake0, hdrop0, jwt_decode_empty_payload]

theorem siglen_bounds_malformed_witness :
    decode_api_token (strOf "ab999") settings0 0 = .httpError .invalidToken
    ∧ errKind .invalidToken = .MalformedToken :=
  siglen_bounds_malformed (strOf "ab999") settings0 0 999 (by decide) (by decide)

/-- C5: empty subject yields a MissingCredential failure — a request
whose credential is already in extracted form, decodes successfully, but
carries an empty subject, fails with the `token has no identity` error,
of kind `MissingCredential`; the result is a typed 401 error, not a
crash, and the store is not queried. -/
theorem empty_subject_missing_credential (t : Str) (s : Settings) (now : Nat)
    (store : Str → Option TokenRecord) (p : JWTPayload) (method : Str)
    (hm : method ≠ strOf "OPTIONS") (hfix : extract_credential t = t)
    (hd : decode_api_token t s now = DecodeOutcome.ok p) (hsub : p.sub = []) :
    verify_api_token method (some t) s now store = (.httpError .noIdentity, false)
    ∧ errKind .noIdentity = .MissingCredential := by
  have hne : t ≠ [] := by
    intro h0
    rw [h0, decode_nil] at hd
    simp at hd
  refine ⟨?_, rfl⟩
  rw [verify_api_eq _ _ _ _ _ hm]
  show verify_checks (extract_credential t) s now store = _
  rw [hfix, verify_checks_decode_ok t s now store p hne hd, if_pos hsub]

theorem empty_subject_missing_credential_witness :
    verify_api_token (strOf "GET") (some emptySubToken0) settings0 500 store0
      = (.httpError .noIdentity, false)
    ∧ errKind .noIdentity = .MissingCredential :=
  empty_subject_missing_credential emptySubToken0 settings0 500 store0
    ⟨[], some 1000⟩ (strOf "GET") (by decide) (by decide) (by decide) rfl

/-- C6: the decoder is not total — a compact token whose trailing three
characters are numeric (in the sense of `str.isnumeric`) without being
decimal digits passes the `isnumeric` guard and then makes `int()` raise
an uncaught `ValueError`: the decoder escapes with an unhandled
exception instead of the `MalformedToken` 401 response. -/
theorem decode_crash_numeric_nondecimal :
    decode_api_token (strOf "ab½½½") settings0 0 = DecodeOutcome.unhandled := by decide

/-- C7: successful verification returns the validated credential — any
successful non-preflight verification returns exactly the extracted
credential string (first conjunct), and presenting an issued compact
token as the bearer value against an active record with an active owner
succeeds and returns that original bearer string (second conjunct). -/
theorem success_returns_validated :
    (∀ (method : Str) (hdr : Option Str) (s : Settings) (now : Nat)
       (store : Str → Option TokenRecord) (r : Str) (q : Bool),
       method ≠ strOf "OPTIONS" →
       verify_api_token method hdr s now store = (.ok r, q) →
       r = extract_credential (hdr.getD []))
    ∧ (∀ (I : Str) (E : Datetime) (s : Settings) (now : Nat)
       (store : Str → Option TokenRecord) (gt : GeneratedToken) (rec : TokenRecord)
       (method : Str),
       I ≠ [] → now < E → method ≠ strOf "OPTIONS" →
       make_api_token (some E) s I = some gt →
       store (hash_token I) = some rec → rec.is_active = true → rec.user.is_active = true →
       verify_api_token method (some gt.value) s now store = (.ok gt.value, true)) := by
  constructor
  · intro method hdr s now store r q hm hver
    rw [verify_api_eq _ _ _ _ _ hm] at hver
    exact verify_checks_ok_identity _ s now store r q hver
  · intro I E s now store gt rec method hI hE hm hmk hst ha hu
    rw [make_api_token_eq] at hmk
    simp only [Option.getD_some] at hmk
    injection hmk with hgt
    subst hgt
    show verify_api_token method (some (issuedCompact s I E)) s now store
      = (.ok (issuedCompact s I E), true)
    have hfix := extract_credential_hexg (issuedCompact s I E) (issuedCompact_mem s I E)
    have hne := issuedCompact_ne_nil s I E
    have hdec : decode_api_token (issuedCompact s I E) s now = .ok ⟨I, some E⟩ := by
      rw [decode_api_token_issued, if_neg (Nat.not_le.mpr hE)]
    rw [verify_api_eq _ _ _ _ _ hm]
    show verify_checks (extract_credential (issuedCompact s I E)) s now store = _
    rw [hfix, verify_checks_decode_ok _ s now store _ hne hdec,
      if_neg (show ¬((⟨I, some E⟩ : JWTPayload).sub = []) from hI),
      show (⟨I, some E⟩ : JWTPayload).sub = I from rfl, hst]
    simp [ha, hu]

theorem success_returns_validated_witness :
    verify_api_token (strOf "GET") (some token0) settings0 500 store0
      = (VerifyOutcome.ok token0, true)
    ∧ token0 = extract_credential ((some token0).getD []) := by
  have h2 := success_returns_validated.2 idStr0 1000 settings0 500 store0
    ⟨token0, hash_token idStr0⟩ ⟨true, ⟨true⟩⟩ (strOf "GET")
    (by decide) (by decide) (by decide) (by decide) (by decide) rfl rfl
  exact ⟨h2, success_returns_validated.1 (strOf "GET") (some token0) settings0 500 store0
    token0 true (by decide) h2⟩

/-- C8: preflight bypass — a request whose method is `OPTIONS` yields
the empty identity with the store never queried, for every header value
(including a missing one), every configuration, every time and every
store: the result is independent of all of them. -/
theorem options_bypass (hdr : Option Str) (s : Settings) (now : Nat)
    (store : Str → Option TokenRecord) :
    verify_api_token (strOf "OPTIONS") hdr s now store = (.ok [], false) := by
  simp [verify_api_token]

/-- C9 counterexample: deleting the occurrences of `Bearer` can splice
the surrounding characters into a fresh occurrence, so a validated
credential can itself be the string `Bearer` — refuting the claim that
a credential containing `Bearer` can never be the validated value. -/
theorem bearer_splice_counterexample :
    extract_credential (strOf "BeaBearerrer") = strOf "Bearer" := by decide

/-- C9 (amended): extraction removes every leftmost non-overlapping
occurrence of `Bearer` and trims whitespace, so `BearerBearerX` and `X`
verify identically under every method, configuration, time and store;
but the removal can splice characters into a new `Bearer` occurrence
(header `BeaBearerrer` validates the credential `Bearer`), so the
validated credential can itself contain `Bearer`. -/
theorem bearer_removal_amended :
    (∀ (method : Str) (s : Settings) (now : Nat) (store : Str → Option TokenRecord),
       verify_api_token method (some (strOf "BearerBearerX")) s now store
         = verify_api_token method (some (strOf "X")) s now store)
    ∧ extract_credential (strOf "BearerBearerX") = extract_credential (strOf "X")
    ∧ extract_credential (strOf "BeaBearerrer") = strOf "Bearer" := by
  refine ⟨?_, by decide, by decide⟩
  intro method s now store
  by_cases hm : method = strOf "OPTIONS"
  · simp [verify_api_token, hm]
  · rw [verify_api_eq _ _ _ _ _ hm, verify_api_eq _ _ _ _ _ hm]
    have hsame : extract_credential ((some (strOf "BearerBearerX")).getD [])
        = extract_credential ((some (strOf "X")).getD []) := by decide
    rw [hsame]

/-- C10: `jwt_encode` overwrites the `exp` field of its payload argument
with `expires_at` when given and with the `datetime.datetime.max`
sentinel otherwise (first conjunct: the returned, mutated payload); the
encoded token is a function of the subject and the `expires_at`
parameter alone, so the expiry on the wire never comes from the
payload passed by the caller (second conjunct); with no `expires_at`,
the recorded expiry is exactly the sentinel (third conjunct). -/
theorem jwt_encode_overwrites_exp (p : JWTPayload) (s : Settings) (e : Option Datetime) :
    (jwt_encode p s e).1 = ⟨p.sub, some (e.getD dtMax)⟩
    ∧ (jwt_encode p s e).2
        = jwtLibEncode p.sub (e.getD dtMax) s.app_secret_key s.jwt_algorithm
    ∧ (jwt_encode p s none).1.exp = some dtMax := by
  refine ⟨?_, rfl, rfl⟩
  show ({ p with exp := some (e.getD dtMax) } : JWTPayload) = ⟨p.sub, some (e.getD dtMax)⟩
  cases p
  rfl
